import Mathlib

/-
  Verification development for the pyman HTTP request runner
  (src/pyman/core_logic.py, src/pyman/request_parser.py).

  The Python core is shallowly embedded:
  * strings are `List Char` (called `Str` below);
  * a Python dict of string variables is an insertion-ordered association
    list `Env` with first-match lookup (Python dicts never hold duplicate
    keys; `envSet` models `d[k] = v`, `envUpdate` models `d.update(src)`,
    and `envEqb` models Python dict equality, i.e. equality of lookups);
  * a hook script (arbitrary Python executed by `exec` with the
    environment dict injected) is a function `ScriptFn` from the
    environment to the mutated environment paired with the optional
    uncaught exception.  `exec` mutates the dict in place, so the mutated
    environment is returned even when the script raises;
  * `requests` dispatch is abstracted to the status code of the obtained
    response (`none` when no response was obtained).
-/

set_option autoImplicit false

/-- Python strings, embedded as lists of characters. -/
abbrev Str := List Char

/-- The characters Python's `str.strip()` removes (ASCII whitespace). -/
def isPySpace (c : Char) : Bool :=
  c = ' ' || c = '\t' || c = '\n' || c = '\x0b' || c = '\x0c' || c = '\r'

/-- Python `str.strip()`: drop leading and trailing whitespace. -/
def pyStrip (s : Str) : Str :=
  ((s.dropWhile isPySpace).reverse.dropWhile isPySpace).reverse

/-- Printable ASCII, the character domain named by the persistence
round-trip property of the specification. -/
def printableAscii (c : Char) : Bool :=
  0x20 ≤ c.toNat && c.toNat ≤ 0x7e

/-- A Python dict of string variables: insertion-ordered association list,
first-match lookup. -/
abbrev Env := List (Str × Str)

/-- Dict lookup `d.get(k)`. -/
def envGet (e : Env) (k : Str) : Option Str :=
  match e with
  | [] => none
  | kv :: rest => if kv.1 = k then some kv.2 else envGet rest k

/-- Dict assignment `d[k] = v`: replace in place if the key is present,
otherwise append. -/
def envSet (e : Env) (k : Str) (v : Str) : Env :=
  match e with
  | [] => [(k, v)]
  | kv :: rest => if kv.1 = k then (k, v) :: rest else kv :: envSet rest k v

/-- Dict merge `d.update(src)`: assign every pair of `src` in order. -/
def envUpdate (e : Env) (src : Env) : Env :=
  src.foldl (fun acc kv => envSet acc kv.1 kv.2) e

/-- The keys of an environment. -/
def envKeys (e : Env) : List Str := e.map Prod.fst

/-- Python dict equality `d1 == d2`: the two mappings agree on every key. -/
def envEqb (a b : Env) : Bool :=
  a.all (fun kv => envGet a kv.1 == envGet b kv.1) &&
  b.all (fun kv => envGet a kv.1 == envGet b kv.1)

/- ------------------------------------------------------------------
   Environment store: `load_environment` / `write_environment_file`
   (core_logic.py lines 169-211).  The file is modelled as its list of
   lines.
   ------------------------------------------------------------------ -/

/-- The quote-stripping step of `load_environment`: if the value both
starts and ends with `"` drop them, else the same for `'`
(core_logic.py lines 181-184). -/
def stripQuotes (v : Str) : Str :=
  if v.head? = some '"' ∧ v.getLast? = some '"' then (v.drop 1).dropLast
  else if v.head? = some '\'' ∧ v.getLast? = some '\'' then (v.drop 1).dropLast
  else v

/-- One line of `load_environment` (core_logic.py lines 176-185):
strip the line, skip blanks, comments and lines without `=`, split at the
first `=`, strip quotes from the value, then strip key and value. -/
def parseEnvLine (raw : Str) : Option (Str × Str) :=
  let line := pyStrip raw
  if line.isEmpty then none
  else if line.head? = some '#' then none
  else if ¬ line.contains '=' then none
  else
    let key := line.takeWhile (fun c => ¬ (c = '='))
    let rest := (line.dropWhile (fun c => ¬ (c = '='))).drop 1
    some (pyStrip key, pyStrip (stripQuotes rest))

/-- `load_environment` (core_logic.py lines 169-191) applied to the lines
of the `.environment-variables` file: fold the parsed lines into a dict. -/
def load_environment (lines : List Str) : Env :=
  lines.foldl
    (fun e l =>
      match parseEnvLine l with
      | some (k, v) => envSet e k v
      | none => e)
    []

/-- The quoting condition of `write_environment_file`: the regex
`[\s#"\']` (core_logic.py line 205). -/
def needsQuote (v : Str) : Bool :=
  v.any (fun c => isPySpace c || c = '#' || c = '"' || c = '\'')

/-- One line written by `write_environment_file`
(core_logic.py lines 204-208). -/
def saveLine (k v : Str) : Str :=
  if needsQuote v then k ++ '=' :: '"' :: (v ++ ['"'])
  else k ++ '=' :: v

/-- A reserved (internal) key: one starting with `_`
(core_logic.py line 200). -/
def isReserved (k : Str) : Bool := k.head? = some '_'

/-- The `clean_vars` filter of `write_environment_file`
(core_logic.py line 200): drop reserved keys before saving. -/
def cleanVars (e : Env) : Env := e.filter (fun kv => ¬ isReserved kv.1)

/-- `write_environment_file` (core_logic.py lines 193-211) as the list of
lines it writes. -/
def write_environment_file (e : Env) : List Str :=
  (cleanVars e).map (fun kv => saveLine kv.1 kv.2)

/- ------------------------------------------------------------------
   Template engine: `substitute_variables` (core_logic.py lines 239-260),
   the regex sub with pattern `\{\{(.*?)\}\}`.
   ------------------------------------------------------------------ -/

/-- Non-greedy search for the closing `}}` of `\{\{(.*?)\}\}`: split the
text after `{{` at the first `}}`, failing on a newline (the regex `.`
does not match a newline).  The attached bound supports termination of
the substitution scan. -/
def splitAtClose : (cs : List Char) →
    Option { p : List Char × List Char // p.2.length < cs.length }
  | [] => none
  | c :: rest =>
    if c = '}' ∧ rest.head? = some '}' then
      some ⟨([], rest.tail), by simp [List.length_tail]; omega⟩
    else if c = '\n' then none
    else
      match splitAtClose rest with
      | some ⟨(inner, after), h⟩ =>
        some ⟨(c :: inner, after), Nat.lt_succ_of_lt h⟩
      | none => none

/-- Whether a `}}` occurs somewhere in the text. -/
def hasClose : List Char → Bool
  | [] => false
  | c :: rest => (c = '}' && rest.head? = some '}') || hasClose rest

/-- Whether the stripped expression is a helper call, i.e. starts with
`pm.` (core_logic.py line 247). -/
def isPmExpr : Str → Bool
  | 'p' :: 'm' :: '.' :: _ => true
  | _ => false

/-- The text `{{n}}`, i.e. `match.group(0)` for inner text `n`. -/
def bracedRef (n : Str) : Str := '{' :: '{' :: (n ++ ['}', '}'])

/-- `substitute_variables` (core_logic.py lines 239-260): scan the text
left to right; at each `{{` find the nearest `}}`; strip the inner
expression; a `pm.`-call is answered by the helper facade (the original
text is kept on helper failure), any other expression is looked up in the
variables (the original text is kept when absent); the replacement is
emitted verbatim and scanning resumes after the match, exactly as
`re.sub` does.  When a `{{` has no closing `}}` the scan moves on by one
character, exactly as the regex engine does. -/
def substitute_variables (vars helper : Str → Option Str) : List Char → List Char
  | [] => []
  | c :: rest =>
    if c = '{' ∧ rest.head? = some '{' then
      match splitAtClose rest.tail with
      | some ⟨(inner, after), _⟩ =>
        let expr := pyStrip inner
        let repl :=
          if isPmExpr expr then (helper expr).getD (bracedRef inner)
          else (vars expr).getD (bracedRef inner)
        repl ++ substitute_variables vars helper after
      | none => c :: substitute_variables vars helper rest
    else c :: substitute_variables vars helper rest
termination_by cs => cs.length
decreasing_by
  · simp only [List.length_tail, List.length_cons] at *; omega
  · simp
  · simp

/- ------------------------------------------------------------------
   Hook executor: `execute_script` (core_logic.py lines 274-345).
   ------------------------------------------------------------------ -/

/-- The uncaught exception of a hook script.  `isAssertionFailure`
records whether it is an `AssertionError` (core_logic.py lines 328-332);
the `requests` JSON-decode error of lines 316-326 is a non-assertion
exception. -/
structure ScriptErr where
  isAssertionFailure : Bool
deriving DecidableEq, Repr

/-- A hook script body: Python code run by `exec` with the environment
dict injected read-write.  It is embedded as the function from the
injected environment to the environment as mutated by the run (mutation
happens in place, so it survives an uncaught exception) together with the
optional uncaught exception. -/
def ScriptFn := Env → Env × Option ScriptErr

/-- The tuple returned by `execute_script`
(`env_changed, output, script_failed_exception, assertion_error`; the
captured text output is orthogonal to every property below and omitted). -/
structure ScriptOutcome where
  env : Env
  envChanged : Bool
  err : Option ScriptErr
  isAssert : Bool
deriving DecidableEq, Repr

/-- `execute_script` (core_logic.py lines 274-345): a missing script file
(modelled by `none`) is a no-op returning `(env, False, None, False)`;
otherwise the script body runs on the environment, the snapshot
`env_before = environment_vars.copy()` is compared by dict equality to the
mutated environment to compute `env_changed`, and `assertion_error` is set
exactly when the uncaught exception is an `AssertionError`. -/
def execute_script (script : Option ScriptFn) (env : Env) : ScriptOutcome :=
  match script with
  | none => ⟨env, false, none, false⟩
  | some f =>
    let r := f env
    { env := r.1
      envChanged := ¬ envEqb r.1 env
      err := r.2
      isAssert := match r.2 with
        | some e => e.isAssertionFailure
        | none => false }

/- ------------------------------------------------------------------
   Collection orchestrator: `run_collection`
   (core_logic.py lines 526-682).
   ------------------------------------------------------------------ -/

/-- The result of one per-request hook stage. -/
structure HookOutcome where
  currentEnv : Env
  globalEnv : Env
  saveCount : Nat
  err : Option ScriptErr
  isAssert : Bool
  envChanged : Bool
deriving DecidableEq, Repr

/-- One per-request hook call site of `run_collection`
(core_logic.py lines 576-579 and 601-607): run `execute_script` on the
per-request environment; when the script is detected to have mutated it,
merge the per-request environment back into the global one with
`global_env_vars.update(current_vars)` and call
`write_environment_file` once. -/
def hookStage (script : Option ScriptFn) (cur g : Env) : HookOutcome :=
  let o := execute_script script cur
  { currentEnv := o.env
    globalEnv := if o.envChanged then envUpdate g o.env else g
    saveCount := if o.envChanged then 1 else 0
    err := o.err
    isAssert := o.isAssert
    envChanged := o.envChanged }

/-- What one request file amounts to for the orchestrator: whether
`parse_request_file` succeeds, the dependency list the parser stores
under `pre-requests` (request_parser.py lines 66-67), the folder config
of the request's directory, the pre and post hook scripts found next to
the file (`none` when the file does not exist), and the status code of
the dispatched response (`none` when no response was obtained). -/
structure RequestSpec where
  parseOk : Bool
  preRequests : List String
  folderVars : Env
  preScript : Option ScriptFn
  posScript : Option ScriptFn
  response : Option Nat

/-- The per-request outcome of the `run_collection` loop body. -/
structure ReqOutcome where
  requestSuccess : Bool
  warnInc : Nat
  httpStatus : Nat
  globalEnv : Env
  saveCount : Nat
  preChanged : Bool
  preErr : Option ScriptErr
  postChanged : Bool
  postErr : Option ScriptErr
  postAssert : Bool

/-- The body of the `for req_file in request_files` loop of
`run_collection` (core_logic.py lines 549-652): copy the global
environment, merge the folder config on top, and when parsing succeeded
run the pre-hook stage, dispatch, the post-hook stage, and the
classification block.  A pre-hook script error marks the request failed
(line 581).  With a post-script, classification looks only at the
post-script's assertion flag and error (lines 617-625).  Without a
post-script, a 4xx status bumps the warnings counter, and then the
unconditional `request_success = False` of line 642 (indented at the
level of the `if`/`elif` chain, not inside the `elif http_status == 0`
arm) marks the request failed whatever the status was. -/
def processRequest (g : Env) (r : RequestSpec) : ReqOutcome :=
  let current := envUpdate g r.folderVars
  if ¬ r.parseOk then
    { requestSuccess := false, warnInc := 0, httpStatus := 0,
      globalEnv := g, saveCount := 0,
      preChanged := false, preErr := none,
      postChanged := false, postErr := none, postAssert := false }
  else
    let pre := hookStage r.preScript current g
    let post := hookStage r.posScript pre.currentEnv pre.globalEnv
    let httpStatus := r.response.getD 0
    let hasPosScript := r.posScript.isSome
    let success :=
      if hasPosScript then
        if post.isAssert then false
        else if post.err.isSome then false
        else pre.err.isNone
      else
        false
    let warnInc :=
      if ¬ hasPosScript ∧ 400 ≤ httpStatus ∧ httpStatus < 500 then 1 else 0
    { requestSuccess := success, warnInc := warnInc, httpStatus := httpStatus,
      globalEnv := post.globalEnv, saveCount := pre.saveCount + post.saveCount,
      preChanged := pre.envChanged, preErr := pre.err,
      postChanged := post.envChanged, postErr := post.err,
      postAssert := post.isAssert }

/-- The aggregate outcome of `run_collection`. -/
structure RunOutcome where
  total : Nat
  success : Nat
  failure : Nat
  warnings : Nat
  failedFiles : List String
  processed : List String
  globalEnv : Env
  saveCount : Nat
  raisesFailure : Bool

/-- The accumulated state of the request loop of `run_collection`. -/
structure LoopOutcome where
  globalEnv : Env
  total : Nat
  success : Nat
  failure : Nat
  warnings : Nat
  failedFiles : List String
  processed : List String
  saveCount : Nat

/-- The request loop of `run_collection`: process the given request
files in order, threading the global environment and accumulating the
counters, the failed files, the save calls and the list of processed
files. -/
def runLoop (g : Env) : List (String × RequestSpec) → LoopOutcome
  | [] =>
    { globalEnv := g, total := 0, success := 0, failure := 0, warnings := 0,
      failedFiles := [], processed := [], saveCount := 0 }
  | (name, r) :: rest =>
    let o := processRequest g r
    let acc := runLoop o.globalEnv rest
    { globalEnv := acc.globalEnv
      total := acc.total + 1
      success := acc.success + (if o.requestSuccess then 1 else 0)
      failure := acc.failure + (if o.requestSuccess then 0 else 1)
      warnings := acc.warnings + o.warnInc
      failedFiles :=
        if o.requestSuccess then acc.failedFiles else name :: acc.failedFiles
      processed := name :: acc.processed
      saveCount := o.saveCount + acc.saveCount }

/-- `run_collection` (core_logic.py lines 526-682): load the environment
(given here as `g0`), inject `_collection_root`, run the collection
pre-script once on the global environment (saving when it mutated it),
run the request loop, run the collection post-script once, and raise at
the end exactly when the failure counter is positive.  The collection
pre- and post-scripts mutate the global dict itself, so their mutations
stick whether or not a save is triggered. -/
def run_collection (cpre cpost : Option ScriptFn) (root : Str) (g0 : Env)
    (reqs : List (String × RequestSpec)) : RunOutcome :=
  let g1 := envSet g0 ('_' :: "collection_root".toList) root
  let opre := execute_script cpre g1
  let spre := if opre.envChanged then 1 else 0
  let acc := runLoop opre.env reqs
  let opost := execute_script cpost acc.globalEnv
  let spost := if opost.envChanged then 1 else 0
  { total := acc.total, success := acc.success, failure := acc.failure
    warnings := acc.warnings
    failedFiles := acc.failedFiles, processed := acc.processed
    globalEnv := opost.env
    saveCount := spre + acc.saveCount + spost
    raisesFailure := 0 < acc.failure }

/- ------------------------------------------------------------------
   Structured substitution inputs, used to state the totality property
   of the template engine.
   ------------------------------------------------------------------ -/

/-- A piece of template text: literal text or a variable reference
`{{n}}`. -/
inductive TChunk where
  | lit (s : Str)
  | ref (n : Str)
deriving DecidableEq

/-- Render a piece back to raw text. -/
def renderChunk : TChunk → Str
  | .lit s => s
  | .ref n => bracedRef n

/-- Render a template to raw text. -/
def renderText (cs : List TChunk) : Str := (cs.map renderChunk).flatten

/-- Well-formedness of a piece: literal text holds no `{`, and a
reference name holds no `}}`, does not end in `}`, holds no newline, is
already stripped and is not a helper call. -/
def chunkWFb : TChunk → Bool
  | .lit s => s.all (fun c => ¬ (c = '{'))
  | .ref n =>
    !(hasClose (n ++ ['}'])) && !(n.contains '\n') &&
      (pyStrip n == n) && !(isPmExpr n)

/-- The expected substitution result of one piece: a literal stays, a
reference becomes the variable's value or stays verbatim when absent. -/
def resolveChunk (vars : Str → Option Str) : TChunk → Str
  | .lit s => s
  | .ref n => (vars n).getD (bracedRef n)

/- ------------------------------------------------------------------
   Concrete hook scripts, variable tables and request files used by the
   closed instances below.
   ------------------------------------------------------------------ -/

/-- A hook that reads the environment but never writes it. -/
def readOnlyScript : ScriptFn := fun e => (e, none)

/-- A hook that sets key `a` to `1` (`environment_vars['a'] = '1'`). -/
def setSameScript : ScriptFn := fun e => (envSet e ['a'] ['1'], none)

/-- A hook that sets key `KEY` to `1`. -/
def addKeyScript : ScriptFn := fun e => (envSet e "KEY".toList ['1'], none)

/-- A hook that raises a non-assertion exception without touching the
environment. -/
def plainErrScript : ScriptFn := fun e => (e, some ⟨false⟩)

/-- A hook that fails an `assert`. -/
def assertFailScript : ScriptFn := fun e => (e, some ⟨true⟩)

/-- A hook that sets key `K` to `2` and then raises a non-assertion
exception. -/
def mutateAndRaiseScript : ScriptFn :=
  fun e => (envSet e ['K'] ['2'], some ⟨false⟩)

/-- A plain request file: parses, no dependencies, no folder config, no
hooks, response `200`. -/
def baseRequest : RequestSpec :=
  { parseOk := true, preRequests := [], folderVars := [], preScript := none,
    posScript := none, response := some 200 }

/-- No post-hook, response `404`. -/
def reqNoPos404 : RequestSpec := { baseRequest with response := some 404 }

/-- A request in a folder whose config sets `FOO=bar`, with a pre-hook
that sets the unrelated key `KEY`. -/
def reqFolderLeak : RequestSpec :=
  { baseRequest with folderVars := [("FOO".toList, "bar".toList)],
                     preScript := some addKeyScript }

/-- A request whose pre-hook raises and whose post-hook runs cleanly. -/
def reqPreErrCleanPost : RequestSpec :=
  { baseRequest with preScript := some plainErrScript,
                     posScript := some readOnlyScript }

/-- A request declaring the dependency `B.yaml` under `pre-requests`. -/
def reqDepA : RequestSpec := { baseRequest with preRequests := ["B.yaml"] }

/-- A clean post-hook on a `503` response. -/
def reqCleanPost503 : RequestSpec :=
  { baseRequest with posScript := some readOnlyScript,
                     response := some 503 }

/-- A variable table where `a` holds the text `{{x}}` and `x` holds
`BOOM`. -/
def selfRefVars : Str → Option Str := fun s =>
  if s = ['a'] then some (bracedRef ['x'])
  else if s = ['x'] then some "BOOM".toList
  else none

/-- A helper facade that always fails. -/
def noHelper : Str → Option Str := fun _ => none

/-- A variable table holding only `a = 1`. -/
def oneVar : Str → Option Str := fun s =>
  if s = ['a'] then some ['1'] else none

/-- A template mixing literal text, the known reference `a` and the
unknown reference `q`. -/
def demoChunks : List TChunk :=
  [.lit "u-".toList, .ref ['a'], .lit ['-'], .ref ['q']]

/-- The shape of every entry produced by `load_environment`: key and
value already stripped, the key holds no `=` and does not start the line
as a comment. -/
def entryInv (k v : Str) : Prop :=
  pyStrip k = k ∧ pyStrip v = v ∧ k.head? ≠ some '#' ∧ ¬ k.contains '='


/- ==================================================================
   Lemma layer
   ================================================================== -/

theorem envKeys_nil : envKeys [] = [] := rfl

theorem envKeys_cons (kv : Str × Str) (rest : Env) :
    envKeys (kv :: rest) = kv.1 :: envKeys rest := rfl

theorem envGet_envSet (e : Env) (k v k' : Str) :
    envGet (envSet e k v) k' = if k' = k then some v else envGet e k' := by
  induction e with
  | nil =>
    by_cases h : k' = k
    · subst h; simp [envSet, envGet]
    · simp [envSet, envGet, h]
      exact fun hh => h hh.symm
  | cons kv rest ih =>
    by_cases h1 : kv.1 = k
    · rw [envSet, if_pos h1]
      by_cases h2 : k' = k
      · subst h2; simp [envGet]
      · have h3 : ¬ k = k' := fun hh => h2 hh.symm
        have h4 : ¬ kv.1 = k' := h1 ▸ h3
        simp [envGet, h2, h3, h4]
    · rw [envSet, if_neg h1]
      by_cases h2 : kv.1 = k'
      · have h3 : ¬ k' = k := fun hh => h1 (h2.trans hh)
        simp [envGet, h2, h3]
      · simp [envGet, h2, ih]

theorem mem_envSet {e : Env} {k v : Str} :
    ∀ kv ∈ envSet e k v, kv ∈ e ∨ kv = (k, v) := by
  induction e with
  | nil => simp [envSet]
  | cons kv0 rest ih =>
    intro kv hkv
    by_cases h1 : kv0.1 = k
    · rw [envSet, if_pos h1] at hkv
      rcases List.mem_cons.mp hkv with h | h
      · exact Or.inr h
      · exact Or.inl (List.mem_cons_of_mem _ h)
    · rw [envSet, if_neg h1] at hkv
      rcases List.mem_cons.mp hkv with h | h
      · exact Or.inl (h ▸ List.mem_cons_self _ _)
      · rcases ih kv h with h' | h'
        · exact Or.inl (List.mem_cons_of_mem _ h')
        · exact Or.inr h'

theorem envKeys_envSet (e : Env) (k v : Str) :
    envKeys (envSet e k v) =
      if k ∈ envKeys e then envKeys e else envKeys e ++ [k] := by
  induction e with
  | nil => simp [envSet, envKeys]
  | cons kv rest ih =>
    by_cases h1 : kv.1 = k
    · rw [envSet, if_pos h1, envKeys_cons, envKeys_cons, h1,
        if_pos (List.mem_cons_self k _)]
    · rw [envSet, if_neg h1, envKeys_cons, envKeys_cons, ih]
      have h2 : (k ∈ kv.1 :: envKeys rest) ↔ k ∈ envKeys rest := by
        rw [List.mem_cons]
        exact or_iff_right (fun hh => h1 hh.symm)
      by_cases h3 : k ∈ envKeys rest
      · rw [if_pos h3, if_pos (h2.mpr h3)]
      · rw [if_neg h3, if_neg (fun hh => h3 (h2.mp hh)), List.cons_append]

theorem envKeys_nodup_envSet {e : Env} {k : Str} (v : Str)
    (h : (envKeys e).Nodup) : (envKeys (envSet e k v)).Nodup := by
  rw [envKeys_envSet]
  by_cases h1 : k ∈ envKeys e
  · rw [if_pos h1]; exact h
  · rw [if_neg h1]
    simpa [List.nodup_append, h] using h1

theorem envEqb_refl (e : Env) : envEqb e e = true := by
  simp [envEqb, List.all_eq_true]

theorem envSet_eq_append {e : Env} {k : Str} (v : Str)
    (h : ¬ k ∈ envKeys e) : envSet e k v = e ++ [(k, v)] := by
  induction e with
  | nil => simp [envSet]
  | cons kv rest ih =>
    rw [envKeys_cons] at h
    have h1 : ¬ kv.1 = k := fun hh => h (hh ▸ List.mem_cons_self _ _)
    have h2 : ¬ k ∈ envKeys rest := fun hh => h (List.mem_cons_of_mem _ hh)
    rw [envSet, if_neg h1, ih h2, List.cons_append]

theorem envUpdate_cons (d : Env) (kv : Str × Str) (rest : Env) :
    envUpdate d (kv :: rest) = envUpdate (envSet d kv.1 kv.2) rest := rfl

theorem envGet_envUpdate_not_mem {src : Env} {k : Str}
    (h : ¬ k ∈ envKeys src) :
    ∀ d, envGet (envUpdate d src) k = envGet d k := by
  induction src with
  | nil => intro d; rfl
  | cons kv rest ih =>
    intro d
    rw [envKeys_cons] at h
    have h1 : ¬ k = kv.1 := fun hh => h (hh ▸ List.mem_cons_self _ _)
    have h2 : ¬ k ∈ envKeys rest := fun hh => h (List.mem_cons_of_mem _ hh)
    rw [envUpdate_cons, ih h2, envGet_envSet, if_neg h1]

theorem envGet_envUpdate_mem {src : Env} {k v : Str}
    (hnd : (envKeys src).Nodup) (hget : envGet src k = some v) :
    ∀ d, envGet (envUpdate d src) k = some v := by
  induction src with
  | nil => simp [envGet] at hget
  | cons kv rest ih =>
    intro d
    rw [envKeys_cons, List.nodup_cons] at hnd
    by_cases h1 : kv.1 = k
    · rw [envGet, if_pos h1] at hget
      rw [envUpdate_cons, envGet_envUpdate_not_mem (h1 ▸ hnd.1),
        envGet_envSet, if_pos h1.symm, hget]
    · rw [envGet, if_neg h1] at hget
      rw [envUpdate_cons, ih hnd.2 hget]

theorem head?_dropWhile_not {p : Char → Bool} {l : List Char} {c : Char}
    (h : (l.dropWhile p).head? = some c) : p c = false := by
  induction l with
  | nil => simp [List.dropWhile] at h
  | cons a l ih =>
    rw [List.dropWhile_cons] at h
    by_cases hp : p a
    · exact ih (by simpa [hp] using h)
    · simp [hp] at h
      have h3 : p a = false := by simpa using hp
      rwa [h] at h3

theorem rstrip_le (s : Str) :
    (s.reverse.dropWhile isPySpace).reverse <+: s := by
  have h := @List.dropWhile_suffix Char s.reverse isPySpace
  have h2 := List.reverse_prefix.mpr h
  simpa using h2

theorem pyStrip_head {s : Str} {c : Char}
    (h : (pyStrip s).head? = some c) : isPySpace c = false := by
  obtain ⟨t, ht⟩ := rstrip_le (s.dropWhile isPySpace)
  have h2 : (s.dropWhile isPySpace).head? = some c := by
    rw [← ht, List.head?_append]
    rw [pyStrip] at h
    simp [h]
  exact head?_dropWhile_not h2

theorem pyStrip_last {s : Str} {c : Char}
    (h : (pyStrip s).getLast? = some c) : isPySpace c = false := by
  have h2 : ((s.dropWhile isPySpace).reverse.dropWhile isPySpace).head? = some c := by
    simpa [pyStrip, List.getLast?_reverse] using h
  exact head?_dropWhile_not h2

theorem pyStrip_eq_self {s : Str}
    (h1 : ∀ c, s.head? = some c → isPySpace c = false)
    (h2 : ∀ c, s.getLast? = some c → isPySpace c = false) :
    pyStrip s = s := by
  have hl : s.dropWhile isPySpace = s := by
    cases s with
    | nil => simp
    | cons a l => rw [List.dropWhile_cons]; simp [h1 a rfl]
  have hr : s.reverse.dropWhile isPySpace = s.reverse := by
    cases hs : s.reverse with
    | nil => simp
    | cons a l =>
      have h3 : s.getLast? = some a := by
        rw [← List.head?_reverse]; simp [hs]
      rw [List.dropWhile_cons]; simp [h2 a h3]
  simp [pyStrip, hl, hr]

theorem pyStrip_idem (s : Str) : pyStrip (pyStrip s) = pyStrip s :=
  pyStrip_eq_self (fun _ h => pyStrip_head h) (fun _ h => pyStrip_last h)

theorem pyStrip_sublist (s : Str) : (pyStrip s).Sublist s := by
  have h1 : (pyStrip s).Sublist (s.dropWhile isPySpace) :=
    (rstrip_le (s.dropWhile isPySpace)).sublist
  exact h1.trans (List.dropWhile_sublist isPySpace)

theorem contains_iff_mem_char {l : Str} {c : Char} : l.contains c ↔ c ∈ l := by
  simp [List.contains]

theorem takeWhile_not_eq_append {k tail : Str} (hk : ¬ '=' ∈ k) :
    (k ++ '=' :: tail).takeWhile (fun c => ¬ (c = '=')) = k := by
  induction k with
  | nil =>
    rw [List.nil_append, List.takeWhile_cons, if_neg (by simp)]
  | cons a k' ih =>
    have ha : ¬ a = '=' := fun hh => hk (hh ▸ List.mem_cons_self _ _)
    have h2 : ¬ '=' ∈ k' := fun hh => hk (List.mem_cons_of_mem _ hh)
    rw [List.cons_append, List.takeWhile_cons, if_pos (by simp [ha]), ih h2]

theorem dropWhile_not_eq_append {k tail : Str} (hk : ¬ '=' ∈ k) :
    (k ++ '=' :: tail).dropWhile (fun c => ¬ (c = '=')) = '=' :: tail := by
  induction k with
  | nil =>
    rw [List.nil_append, List.dropWhile_cons, if_neg (by simp)]
  | cons a k' ih =>
    have ha : ¬ a = '=' := fun hh => hk (hh ▸ List.mem_cons_self _ _)
    have h2 : ¬ '=' ∈ k' := fun hh => hk (List.mem_cons_of_mem _ hh)
    rw [List.cons_append, List.dropWhile_cons, if_pos (by simp [ha]), ih h2]

theorem needsQuote_false_mem {v : Str} {c : Char}
    (h : needsQuote v = false) (hc : c ∈ v) :
    isPySpace c = false ∧ ¬ c = '#' ∧ ¬ c = '"' ∧ ¬ c = '\'' := by
  rw [needsQuote, List.any_eq_false] at h
  have h2 := h c hc
  simp at h2
  exact ⟨h2.1.1.1, h2.1.1.2, h2.1.2, h2.2⟩


theorem getLast?_append_cons (k : Str) (c0 : Char) (v : Str) :
    (k ++ c0 :: v).getLast? = some (v.getLast?.getD c0) := by
  rw [List.getLast?_append, List.getLast?_cons]
  simp

theorem head?_append_cons_not_space {k : Str} {c0 : Char} {tail : Str}
    (hk : ∀ c, k.head? = some c → isPySpace c = false)
    (hc0 : isPySpace c0 = false) :
    ∀ c, (k ++ c0 :: tail).head? = some c → isPySpace c = false := by
  intro c hc
  cases k with
  | nil => simp at hc; exact hc ▸ hc0
  | cons a k' =>
    simp at hc
    exact hc ▸ hk a rfl

theorem head?_append_cons_not_sharp {k : Str} (c0 : Char) (tail : Str)
    (hk : k.head? ≠ some '#') (hc0 : ¬ c0 = '#') :
    ¬ (k ++ c0 :: tail).head? = some '#' := by
  cases k with
  | nil => simpa using hc0
  | cons a k' =>
    simp only [List.cons_append, List.head?_cons]
    intro hcon
    exact hk (by simpa using hcon)

/-- The save-then-load round trip on one entry: a stripped key with no
`=` that does not start with `#`, and a stripped value, are read back
unchanged from the line `write_environment_file` emits for them. -/
theorem parseEnvLine_saveLine {k v : Str}
    (hk : pyStrip k = k) (hsharp : k.head? ≠ some '#')
    (heq : ¬ '=' ∈ k) (hv : pyStrip v = v) :
    parseEnvLine (saveLine k v) = some (k, v) := by
  have hkhead : ∀ c, k.head? = some c → isPySpace c = false :=
    fun c hc => pyStrip_head (show (pyStrip k).head? = some c by rw [hk]; exact hc)
  have hvlast : ∀ c, v.getLast? = some c → isPySpace c = false :=
    fun c hc => pyStrip_last (show (pyStrip v).getLast? = some c by rw [hv]; exact hc)
  by_cases hq : needsQuote v
  · -- quoted branch: the line is  k="v"
    rw [saveLine, if_pos hq]
    have hstrip : pyStrip (k ++ '=' :: '"' :: (v ++ ['"'])) =
        k ++ '=' :: '"' :: (v ++ ['"']) := by
      apply pyStrip_eq_self
      · exact head?_append_cons_not_space hkhead (by decide)
      · intro c hc
        rw [getLast?_append_cons] at hc
        have h2 : ('"' :: (v ++ ['"'])).getLast? = some '"' := by
          show (('"' :: v) ++ ['"']).getLast? = some '"'
          exact List.getLast?_concat _
        rw [h2] at hc
        simp at hc
        exact hc ▸ (by decide : isPySpace '\"' = false)
    rw [parseEnvLine]
    simp only [hstrip]
    have hne : ¬ (k ++ '=' :: '"' :: (v ++ ['"'])).isEmpty = true := by
      simp
    have hhash := head?_append_cons_not_sharp '='
      ('"' :: (v ++ ['"'])) hsharp (by decide)
    have hcont : (k ++ '=' :: '"' :: (v ++ ['"'])).contains '=' := by
      rw [contains_iff_mem_char]
      exact List.mem_append_right _ (List.mem_cons_self _ _)
    rw [if_neg hne, if_neg hhash, if_neg (by simp [hcont])]
    rw [takeWhile_not_eq_append heq, dropWhile_not_eq_append heq]
    simp only [List.drop_succ_cons, List.drop_zero]
    have hsq : stripQuotes ('"' :: (v ++ ['"'])) = v := by
      rw [stripQuotes, if_pos]
      · simp [List.dropLast_concat]
      · refine ⟨by simp, ?_⟩
        show (('"' :: v) ++ ['"']).getLast? = some '"'
        exact List.getLast?_concat _
    rw [hsq, hk, hv]
  · -- unquoted branch: the line is  k=v
    rw [saveLine, if_neg hq]
    have hq' : needsQuote v = false := by simpa using hq
    have hstrip : pyStrip (k ++ '=' :: v) = k ++ '=' :: v := by
      apply pyStrip_eq_self
      · exact head?_append_cons_not_space hkhead (by decide)
      · intro c hc
        rw [getLast?_append_cons] at hc
        cases hvv : v.getLast? with
        | none =>
          rw [hvv] at hc; simp at hc
          exact hc ▸ (by decide : isPySpace '=' = false)
        | some d =>
          rw [hvv] at hc; simp at hc
          exact hc ▸ hvlast d hvv
    rw [parseEnvLine]
    simp only [hstrip]
    have hne : ¬ (k ++ '=' :: v).isEmpty = true := by simp
    have hhash := head?_append_cons_not_sharp '=' v
      hsharp (by decide)
    have hcont : (k ++ '=' :: v).contains '=' := by
      rw [contains_iff_mem_char]
      exact List.mem_append_right _ (List.mem_cons_self _ _)
    rw [if_neg hne, if_neg hhash, if_neg (by simp [hcont])]
    rw [takeWhile_not_eq_append heq, dropWhile_not_eq_append heq]
    simp only [List.drop_succ_cons, List.drop_zero]
    have hsq : stripQuotes v = v := by
      have hnq : ¬ (v.head? = some '"' ∧ v.getLast? = some '"') := by
        intro hcon
        cases v with
        | nil => simp at hcon
        | cons a l =>
          have := needsQuote_false_mem hq' (List.mem_cons_self a l)
          simp at hcon
          exact this.2.2.1 hcon.1
      have hnq' : ¬ (v.head? = some '\'' ∧ v.getLast? = some '\'') := by
        intro hcon
        cases v with
        | nil => simp at hcon
        | cons a l =>
          have := needsQuote_false_mem hq' (List.mem_cons_self a l)
          simp at hcon
          exact this.2.2.2 hcon.1
      rw [stripQuotes, if_neg hnq, if_neg hnq']
    rw [hsq, hk, hv]

theorem head?_pyStrip_of_head {s : Str} {c0 : Char}
    (hs : s.head? = some c0) (hc0 : isPySpace c0 = false) {c : Char}
    (h : (pyStrip s).head? = some c) : c = c0 := by
  cases s with
  | nil => simp at hs
  | cons a s' =>
    have ha : a = c0 := by simpa using hs
    have hl : (a :: s').dropWhile isPySpace = a :: s' := by
      rw [List.dropWhile_cons, if_neg (by simp [ha, hc0])]
    obtain ⟨t, ht⟩ := rstrip_le (a :: s')
    have hps : pyStrip (a :: s') = ((a :: s').reverse.dropWhile isPySpace).reverse := by
      rw [pyStrip, hl]
    rw [hps] at h
    have h2 : (a :: s').head? = some c := by
      rw [← ht, List.head?_append, h]; rfl
    simp at h2
    rw [← h2, ha]

/-- Every entry produced by `parseEnvLine` is stripped, has no `=` in the
key, and its key does not start with `#`. -/
theorem parseEnvLine_inv {raw k v : Str}
    (h : parseEnvLine raw = some (k, v)) : entryInv k v := by
  rw [parseEnvLine] at h
  by_cases h1 : (pyStrip raw).isEmpty = true
  · rw [if_pos h1] at h; exact absurd h (by simp)
  rw [if_neg h1] at h
  by_cases h2 : (pyStrip raw).head? = some '#'
  · rw [if_pos h2] at h; exact absurd h (by simp)
  rw [if_neg h2] at h
  by_cases h3 : ¬ (pyStrip raw).contains '=' = true
  · rw [if_pos h3] at h; exact absurd h (by simp)
  rw [if_neg h3, Option.some.injEq, Prod.mk.injEq] at h
  obtain ⟨hk, hv⟩ := h
  refine ⟨hk ▸ pyStrip_idem _, hv ▸ pyStrip_idem _, ?_, ?_⟩
  · -- the key does not start with '#'
    intro hcon
    cases hK : (pyStrip raw).takeWhile (fun c => ¬ (c = '=')) with
    | nil =>
      rw [← hk, hK] at hcon
      simp [pyStrip] at hcon
    | cons c0 kr =>
      have hline : (pyStrip raw).head? = some c0 := by
        cases hl : pyStrip raw with
        | nil => rw [hl] at hK; simp at hK
        | cons d line' =>
          rw [hl, List.takeWhile_cons] at hK
          by_cases hd : d = '='
          · rw [if_neg (by simp [hd])] at hK; simp at hK
          · rw [if_pos (by simp [hd])] at hK
            simp only [List.cons.injEq] at hK
            simp [hK.1]
      have hc0 : isPySpace c0 = false :=
        pyStrip_head (show (pyStrip raw).head? = some c0 from hline)
      have hc0h : ¬ c0 = '#' := fun hh => h2 (hh ▸ hline)
      have hKhead : ((pyStrip raw).takeWhile (fun c => ¬ (c = '='))).head? = some c0 := by
        rw [hK]; rfl
      have hsharp : (pyStrip ((pyStrip raw).takeWhile (fun c => ¬ (c = '=')))).head? = some '#' := by
        rw [hk, hcon]
      exact hc0h (head?_pyStrip_of_head hKhead hc0 hsharp).symm
  · -- the key holds no '='
    rw [contains_iff_mem_char]
    intro hcon
    rw [← hk] at hcon
    have h4 := (pyStrip_sublist _).mem hcon
    have h5 := List.mem_takeWhile_imp h4
    simp at h5

theorem load_foldl_inv (lines : List Str) (acc : Env)
    (hacc : ∀ kv ∈ acc, entryInv kv.1 kv.2) :
    ∀ kv ∈ lines.foldl
      (fun e l =>
        match parseEnvLine l with
        | some (k, v) => envSet e k v
        | none => e) acc,
      entryInv kv.1 kv.2 := by
  induction lines generalizing acc with
  | nil => exact hacc
  | cons l rest ih =>
    simp only [List.foldl_cons]
    apply ih
    cases hp : parseEnvLine l with
    | none => simpa [hp] using hacc
    | some p =>
      simp only [hp]
      intro kv hkv
      rcases mem_envSet kv hkv with h | h
      · exact hacc kv h
      · have := parseEnvLine_inv (show parseEnvLine l = some (p.1, p.2) by simpa using hp)
        rw [h]
        exact this

/-- Entries of a loaded environment are stripped, `=`-free in the key and
do not start with `#`. -/
theorem mem_load_environment_inv {lines : List Str} {kv : Str × Str}
    (h : kv ∈ load_environment lines) : entryInv kv.1 kv.2 :=
  load_foldl_inv lines [] (by simp) kv h

theorem load_foldl_nodup (lines : List Str) (acc : Env)
    (hacc : (envKeys acc).Nodup) :
    (envKeys (lines.foldl
      (fun e l =>
        match parseEnvLine l with
        | some (k, v) => envSet e k v
        | none => e) acc)).Nodup := by
  induction lines generalizing acc with
  | nil => exact hacc
  | cons l rest ih =>
    simp only [List.foldl_cons]
    apply ih
    cases hp : parseEnvLine l with
    | none => simpa [hp] using hacc
    | some p => simp only [hp]; exact envKeys_nodup_envSet _ hacc

/-- A loaded environment is a dict: its keys are distinct. -/
theorem load_environment_keys_nodup (lines : List Str) :
    (envKeys (load_environment lines)).Nodup :=
  load_foldl_nodup lines [] (by simp [envKeys])

theorem foldl_envSet_append (l : Env) :
    ∀ acc, (envKeys l).Nodup →
    (∀ kk ∈ envKeys l, ¬ kk ∈ envKeys acc) →
    l.foldl (fun e kv => envSet e kv.1 kv.2) acc = acc ++ l := by
  induction l with
  | nil => intro acc _ _; simp
  | cons kv rest ih =>
    intro acc hnd hdisj
    rw [envKeys_cons, List.nodup_cons] at hnd
    simp only [List.foldl_cons]
    rw [envSet_eq_append kv.2 (hdisj kv.1 (by rw [envKeys_cons]; exact List.mem_cons_self _ _))]
    rw [ih (acc ++ [(kv.1, kv.2)]) hnd.2 ?_]
    · simp
    · intro kk hkk
      have h1 : ¬ kk ∈ envKeys acc :=
        hdisj kk (by rw [envKeys_cons]; exact List.mem_cons_of_mem _ hkk)
      have h2 : ¬ kk = kv.1 := fun hh => hnd.1 (hh ▸ hkk)
      simp [envKeys, h1, h2]
      simpa [envKeys] using h1

/-- Loading the lines that `write_environment_file` emits for a dict with
well-formed entries gives back exactly its non-reserved entries. -/
theorem load_write_environment {M : Env}
    (hinv : ∀ kv ∈ M, entryInv kv.1 kv.2)
    (hnd : (envKeys M).Nodup) :
    load_environment (write_environment_file M) = cleanVars M := by
  have hsub : (cleanVars M).Sublist M := List.filter_sublist M
  have hcnd : (envKeys (cleanVars M)).Nodup :=
    (hsub.map Prod.fst).nodup hnd
  rw [load_environment, write_environment_file, List.foldl_map]
  have hstep :
      (cleanVars M).foldl
        (fun e kv =>
          match parseEnvLine (saveLine kv.1 kv.2) with
          | some (k, v) => envSet e k v
          | none => e) [] =
      (cleanVars M).foldl (fun e kv => envSet e kv.1 kv.2) [] := by
    apply List.foldl_ext
    intro e kv hkv
    have hi := hinv kv (hsub.mem hkv)
    rw [parseEnvLine_saveLine hi.1 hi.2.2.1
      (fun hh => hi.2.2.2 (contains_iff_mem_char.mpr hh)) hi.2.1]
  rw [hstep, foldl_envSet_append _ [] hcnd (by simp [envKeys])]
  simp

theorem envGet_cleanVars {e : Env} {k : Str}
    (h : isReserved k = false) : envGet (cleanVars e) k = envGet e k := by
  induction e with
  | nil => rfl
  | cons kv rest ih =>
    by_cases h1 : isReserved kv.1
    · have h2 : ¬ kv.1 = k := fun hh => by rw [hh, h] at h1; exact absurd h1 (by simp)
      rw [cleanVars, List.filter_cons, if_neg (by simp [h1])]
      rw [envGet, if_neg h2]
      exact ih
    · rw [cleanVars, List.filter_cons, if_pos (by simp [h1])]
      rw [envGet, envGet]
      by_cases h2 : kv.1 = k
      · simp [h2]
      · simp only [h2, if_false]
        exact ih

theorem subst_nil (vars helper : Str → Option Str) :
    substitute_variables vars helper [] = [] := by
  unfold substitute_variables
  rfl

theorem subst_cons_not_open {vars helper : Str → Option Str} {c : Char} {rest : Str}
    (h : ¬ (c = '{' ∧ rest.head? = some '{')) :
    substitute_variables vars helper (c :: rest) =
      c :: substitute_variables vars helper rest := by
  rw [substitute_variables, if_neg h]

theorem splitAtClose_exact {n : Str} (t : Str)
    (h1 : hasClose (n ++ ['}']) = false) (h2 : ¬ '\n' ∈ n) :
    (splitAtClose (n ++ '}' :: '}' :: t)).map Subtype.val = some (n, t) := by
  induction n with
  | nil => simp [splitAtClose]
  | cons c n' ih =>
    rw [List.cons_append, hasClose] at h1
    simp only [Bool.or_eq_false_iff, Bool.and_eq_false_iff] at h1
    have hh : (n' ++ ['}']).head? = (n' ++ '}' :: '}' :: t).head? := by
      rw [List.head?_append, List.head?_append]
      rfl
    have hc1 : ¬ (c = '}' ∧ (n' ++ '}' :: '}' :: t).head? = some '}') := by
      intro hcon
      rcases h1.1 with hA | hA
      · simp [hcon.1] at hA
      · rw [hh] at hA
        simp [hcon.2] at hA
    have hcn : ¬ c = '\n' := fun hcon => h2 (hcon ▸ List.mem_cons_self _ _)
    have ih2 := ih h1.2 (fun hcon => h2 (List.mem_cons_of_mem _ hcon))
    rw [List.cons_append, splitAtClose, if_neg hc1, if_neg hcn]
    cases hq : splitAtClose (n' ++ '}' :: '}' :: t) with
    | none => rw [hq] at ih2; simp at ih2
    | some pr =>
      rw [hq] at ih2
      obtain ⟨⟨inner, after⟩, hlt⟩ := pr
      simp only [Option.map_some'] at ih2
      have hval : inner = n' ∧ after = t := by simpa using ih2
      simp [hval.1, hval.2]

theorem subst_ref_found {vars helper : Str → Option Str} {n : Str} (t : Str)
    (h1 : hasClose (n ++ ['}']) = false) (h2 : ¬ '\n' ∈ n) :
    substitute_variables vars helper ('{' :: '{' :: (n ++ '}' :: '}' :: t)) =
      (if isPmExpr (pyStrip n) then (helper (pyStrip n)).getD (bracedRef n)
       else (vars (pyStrip n)).getD (bracedRef n)) ++
      substitute_variables vars helper t := by
  have hsp := splitAtClose_exact t h1 h2
  rw [substitute_variables, if_pos ⟨rfl, by simp⟩]
  simp only [List.tail_cons]
  cases hq : splitAtClose (n ++ '}' :: '}' :: t) with
  | none => rw [hq] at hsp; simp at hsp
  | some pr =>
    rw [hq] at hsp
    obtain ⟨⟨inner, after⟩, hlt⟩ := pr
    simp only [Option.map_some'] at hsp
    have hval : inner = n ∧ after = t := by simpa using hsp
    simp [hval.1, hval.2]

theorem subst_append_lit {vars helper : Str → Option Str} {s : Str} (t : Str)
    (h : ∀ c ∈ s, ¬ c = '{') :
    substitute_variables vars helper (s ++ t) =
      s ++ substitute_variables vars helper t := by
  induction s with
  | nil => simp
  | cons c s' ih =>
    have hc : ¬ c = '{' := h c (List.mem_cons_self _ _)
    rw [List.cons_append,
      subst_cons_not_open (fun hcon => hc hcon.1),
      ih (fun d hd => h d (List.mem_cons_of_mem _ hd)),
      List.cons_append]

theorem subst_renderText {vars helper : Str → Option Str} {chunks : List TChunk}
    (hwf : ∀ ch ∈ chunks, chunkWFb ch = true) :
    substitute_variables vars helper (renderText chunks) =
      (chunks.map (resolveChunk vars)).flatten := by
  induction chunks with
  | nil => simp [renderText, subst_nil]
  | cons ch rest ih =>
    have hch := hwf ch (List.mem_cons_self _ _)
    have hrest := fun c hc => hwf c (List.mem_cons_of_mem _ hc)
    cases ch with
    | lit s =>
      have hs : ∀ c ∈ s, ¬ c = '{' := by
        simpa [chunkWFb] using hch
      have hr : renderText (TChunk.lit s :: rest) = s ++ renderText rest := by
        simp [renderText, renderChunk]
      rw [hr, subst_append_lit _ hs, ih hrest]
      simp [resolveChunk]
    | ref n =>
      simp only [chunkWFb, Bool.and_eq_true, Bool.not_eq_true',
        beq_iff_eq] at hch
      have hclose : hasClose (n ++ ['}']) = false := hch.1.1.1
      have hnl : ¬ '\n' ∈ n := by
        have := hch.1.1.2
        simpa [contains_iff_mem_char] using this
      have hstripn : pyStrip n = n := hch.1.2
      have hpm : isPmExpr n = false := hch.2
      have hr : renderText (TChunk.ref n :: rest) =
          '{' :: '{' :: (n ++ '}' :: '}' :: renderText rest) := by
        simp [renderText, renderChunk, bracedRef]
      rw [hr, subst_ref_found (renderText rest) hclose hnl, hstripn,
        if_neg (by simp [hpm]), ih hrest]
      simp [resolveChunk]

theorem subst_renderText_no_brace {vars helper : Str → Option Str}
    {chunks : List TChunk}
    (hwf : ∀ ch ∈ chunks, chunkWFb ch = true)
    (hknown : ∀ n, TChunk.ref n ∈ chunks →
      ∃ v, vars n = some v ∧ ∀ c ∈ v, ¬ c = '{') :
    ∀ c ∈ substitute_variables vars helper (renderText chunks), ¬ c = '{' := by
  rw [subst_renderText hwf]
  intro c hc
  rw [List.mem_flatten] at hc
  obtain ⟨l, hl, hcl⟩ := hc
  rw [List.mem_map] at hl
  obtain ⟨ch, hch, hres⟩ := hl
  cases ch with
  | lit s =>
    have hs : ∀ x ∈ s, ¬ x = '{' := by simpa [chunkWFb] using hwf _ hch
    exact hs c (by rw [← hres] at hcl; exact hcl)
  | ref n =>
    obtain ⟨v, hv, hvfree⟩ := hknown n hch
    rw [← hres] at hcl
    rw [resolveChunk, hv] at hcl
    exact hvfree c hcl

theorem runLoop_processed (reqs : List (String × RequestSpec)) :
    ∀ g, (runLoop g reqs).processed = reqs.map Prod.fst := by
  induction reqs with
  | nil => intro g; rfl
  | cons nr rest ih =>
    intro g
    obtain ⟨name, r⟩ := nr
    simp [runLoop, ih]

theorem execute_script_none (env : Env) :
    execute_script none env = ⟨env, false, none, false⟩ := rfl

theorem hookStage_envChanged (s : Option ScriptFn) (cur g : Env) :
    (hookStage s cur g).envChanged = (execute_script s cur).envChanged := rfl

theorem hookStage_currentEnv (s : Option ScriptFn) (cur g : Env) :
    (hookStage s cur g).currentEnv = (execute_script s cur).env := rfl

theorem hookStage_err (s : Option ScriptFn) (cur g : Env) :
    (hookStage s cur g).err = (execute_script s cur).err := rfl

theorem hookStage_globalEnv (s : Option ScriptFn) (cur g : Env) :
    (hookStage s cur g).globalEnv =
      if (execute_script s cur).envChanged then
        envUpdate g (execute_script s cur).env
      else g := rfl

theorem hookStage_saveCount (s : Option ScriptFn) (cur g : Env) :
    (hookStage s cur g).saveCount =
      if (execute_script s cur).envChanged then 1 else 0 := rfl

/- ==================================================================
   Claim theorems
   ================================================================== -/

/-- C1: the claim says that without a post-hook a request is classified
purely by HTTP status (status 200 a success, a 4xx a warning and not a
failure).  The code does not do this: the unconditional
`request_success = False` at core_logic.py line 642 (indented at the
level of the status `if`/`elif` chain, contradicting the code's own
comment `request_success remains True for a warning` on line 637) makes
every request without a post-hook count as a failure.  This theorem
evaluates the embedded `run_collection` at the failing inputs: a lone
200-response request yields zero successes and one failure, and a lone
404-response request is counted both as a warning and as a failure. -/
theorem c1_no_post_hook_every_request_counted_failed :
    (run_collection none none [] [] [("r200.yaml", baseRequest)]).success = 0 ∧
    (run_collection none none [] [] [("r200.yaml", baseRequest)]).failure = 1 ∧
    (run_collection none none [] [] [("r200.yaml", baseRequest)]).raisesFailure = true ∧
    (run_collection none none [] [] [("r404.yaml", reqNoPos404)]).warnings = 1 ∧
    (run_collection none none [] [] [("r404.yaml", reqNoPos404)]).failure = 1 := by
  refine ⟨rfl, rfl, ?_, rfl, rfl⟩
  decide

/-- C2 (counterexample): a request file declaring the dependency
`B.yaml` under `pre-requests` is executed without its dependency ever
being processed: the run processes exactly `A.yaml`.  This refutes the
claim that declared dependency request files are executed before the
request itself. -/
theorem c2_counterexample_dependency_not_executed :
    reqDepA.preRequests = ["B.yaml"] ∧
    (run_collection none none [] [] [("A.yaml", reqDepA)]).processed
      = ["A.yaml"] ∧
    ¬ "B.yaml" ∈
      (run_collection none none [] [] [("A.yaml", reqDepA)]).processed := by
  refine ⟨rfl, rfl, ?_⟩
  intro h
  rw [show (run_collection none none [] [] [("A.yaml", reqDepA)]).processed
      = ["A.yaml"] from rfl] at h
  simp at h

/-- C2 (amended): the `pre-requests` list is parsed into the request
descriptor (request_parser.py line 67) but never consulted: the
orchestrator processes exactly the request files handed to it, in order,
whatever dependencies any descriptor declares.  There is no visited set
and no recursion, so a cyclic dependency chain cannot make the run loop,
but it is not detected or reported either — dependencies are simply
never executed. -/
theorem c2_amended_dependencies_ignored (cpre cpost : Option ScriptFn)
    (root : Str) (g0 : Env) (reqs : List (String × RequestSpec)) :
    (run_collection cpre cpost root g0 reqs).processed = reqs.map Prod.fst := by
  have h : (run_collection cpre cpost root g0 reqs).processed =
      (runLoop (execute_script cpre
        (envSet g0 ('_' :: "collection_root".toList) root)).env reqs).processed :=
    rfl
  rw [h, runLoop_processed]

/-- C3 (counterexample): the claim says folder-override pairs are never
written back into the global Environment nor persisted.  But when a hook
script mutates the environment, `global_env_vars.update(current_vars)`
(core_logic.py lines 578 and 605) merges the whole per-request copy back,
folder overrides included: with folder config `FOO=bar` and a pre-hook
that sets the unrelated key `KEY`, the global environment ends up holding
`FOO=bar`, and `FOO` (not reserved) is part of what
`write_environment_file` persists. -/
theorem c3_counterexample_folder_override_leaks :
    envGet (processRequest [] reqFolderLeak).globalEnv "FOO".toList
      = some "bar".toList ∧
    ("FOO".toList, "bar".toList) ∈
      cleanVars (processRequest [] reqFolderLeak).globalEnv ∧
    (processRequest [] reqFolderLeak).saveCount = 1 := by
  refine ⟨?_, ?_, rfl⟩ <;> decide

/-- C3 (amended): folder overrides are merged only into the per-request
copy, and the global Environment and the store are untouched as long as
no hook reports an environment change; but when a hook does mutate the
environment, the entire per-request copy — folder-override keys included
— is merged back into the global Environment (and then persisted), so a
folder-override key not touched by the hook does reach the global
Environment. -/
theorem c3_amended_folder_override_merge (g : Env) (r : RequestSpec) :
    ((processRequest g r).preChanged = false →
      (processRequest g r).postChanged = false →
      (processRequest g r).globalEnv = g ∧
        (processRequest g r).saveCount = 0) ∧
    (∀ f k v, r.parseOk = true → r.preScript = some f →
      r.posScript = none →
      envGet (f (envUpdate g r.folderVars)).1 k
        = envGet (envUpdate g r.folderVars) k →
      envGet (envUpdate g r.folderVars) k = some v →
      (envKeys (f (envUpdate g r.folderVars)).1).Nodup →
      (processRequest g r).preChanged = true →
      envGet (processRequest g r).globalEnv k = some v) := by
  constructor
  · intro hpre hpost
    by_cases hp : r.parseOk = true
    · rw [processRequest, if_neg (by simp [hp])] at hpre hpost ⊢
      simp only [hookStage_envChanged, hookStage_currentEnv] at hpre hpost
      constructor
      · simp [hookStage_globalEnv, hookStage_currentEnv, hpre, hpost]
      · simp [hookStage_saveCount, hookStage_globalEnv, hookStage_currentEnv,
          hpre, hpost]
    · rw [processRequest, if_pos (by simp [hp])]
      exact ⟨rfl, rfl⟩
  · intro f k v hparse hf hpos hpreserve hget hnd hchanged
    rw [processRequest, if_neg (by simp [hparse])] at hchanged ⊢
    rw [hf] at hchanged ⊢
    rw [hpos]
    simp only [hookStage_envChanged] at hchanged
    simp only [hookStage_globalEnv, hookStage_currentEnv,
      execute_script_none, hchanged, if_true]
    simp only [if_false, Bool.false_eq_true]
    have hget' : envGet (execute_script (some f) (envUpdate g r.folderVars)).env k
        = some v := by
      show envGet (f (envUpdate g r.folderVars)).1 k = some v
      rw [hpreserve, hget]
    have hnd' : (envKeys (execute_script (some f) (envUpdate g r.folderVars)).env).Nodup := hnd
    exact envGet_envUpdate_mem hnd' hget' g

/-- C3 (amended, witness): both halves at concrete inputs — a request
with no hooks leaves the global environment `A=1` untouched with no save,
and the `FOO=bar` folder override of `reqFolderLeak` reaches the global
environment once its pre-hook mutates the environment. -/
theorem c3_amended_folder_override_merge_witness :
    ((processRequest [(['A'], ['1'])] baseRequest).globalEnv = [(['A'], ['1'])] ∧
      (processRequest [(['A'], ['1'])] baseRequest).saveCount = 0) ∧
    envGet (processRequest [] reqFolderLeak).globalEnv "FOO".toList
      = some "bar".toList := by
  constructor
  · exact (c3_amended_folder_override_merge [(['A'], ['1'])] baseRequest).1
      rfl rfl
  · exact (c3_amended_folder_override_merge [] reqFolderLeak).2
      addKeyScript "FOO".toList "bar".toList rfl rfl rfl
      (by decide) (by decide) (by decide) (by decide)

/-- C4 (counterexample): the claim says `save` quotes a value only when
it contains whitespace or quote characters.  The regex at
core_logic.py line 205 is `[\s#"\']`: the value `a#b` contains neither
whitespace nor a quote character, yet its line is written quoted. -/
theorem c4_counterexample_hash_also_quoted :
    needsQuote "a#b".toList = true ∧
    ("a#b".toList.any (fun c => isPySpace c || c = '"' || c = '\'')) = false ∧
    saveLine ['K'] "a#b".toList = "K=\"a#b\"".toList := by
  exact ⟨by decide, by decide, by decide⟩

/-- C4 (amended): for a stored environment of printable-ASCII pairs the
round trip `load(save(load(E)))` preserves the value of every
non-reserved key (reserved `_`-prefixed keys are omitted by `save`, as
the specification itself states), and `save` quotes a value exactly when
it contains whitespace, `#`, or a quote character — `#` added to the
claim's "whitespace or quote characters".  The printable-ASCII
hypothesis restates the claim's domain; it is what makes the
list-of-lines file model faithful (a control character such as a newline
inside a value would split the written line on disk, which a line list
cannot express). -/
theorem c4_amended_persistence_roundtrip (lines : List Str)
    (hprint : ∀ l ∈ lines, ∀ c ∈ l, printableAscii c = true) :
    (∀ k, isReserved k = false →
      envGet (load_environment (write_environment_file
          (load_environment lines))) k
        = envGet (load_environment lines) k) ∧
    (∀ v : Str, needsQuote v = true ↔
      ∃ c ∈ v, isPySpace c = true ∨ c = '#' ∨ c = '"' ∨ c = '\'') := by
  constructor
  · intro k hk
    rw [load_write_environment
      (fun kv hkv => mem_load_environment_inv hkv)
      (load_environment_keys_nodup lines)]
    exact envGet_cleanVars hk
  · intro v
    simp only [needsQuote, List.any_eq_true, Bool.or_eq_true, decide_eq_true_eq]
    constructor
    · rintro ⟨c, hc, hp⟩
      exact ⟨c, hc, by tauto⟩
    · rintro ⟨c, hc, hp⟩
      exact ⟨c, hc, by tauto⟩

/-- C4 (amended, witness): the round trip at a concrete store holding a
plain value, a quoted value and a reserved key. -/
theorem c4_amended_persistence_roundtrip_witness :
    envGet (load_environment (write_environment_file (load_environment
        ["A=1".toList, "B=\"x y\"".toList, "_r=z".toList])))
      "B".toList = some "x y".toList ∧
    envGet (load_environment
        ["A=1".toList, "B=\"x y\"".toList, "_r=z".toList])
      "B".toList = some "x y".toList := by
  have h := (c4_amended_persistence_roundtrip
    ["A=1".toList, "B=\"x y\"".toList, "_r=z".toList]
    (by decide)).1 "B".toList (by decide)
  exact ⟨by rw [h]; decide, by decide⟩

/-- C5 (counterexample): the claim says a hook that sets at least one
key yields `envChanged = true` and triggers exactly one save.  Mutation
detection compares the environment dict to its snapshot by value
(core_logic.py lines 285 and 335), so a script that sets key `a` to the
value `1` it already holds yields `envChanged = false` and no save. -/
theorem c5_counterexample_set_same_value :
    (execute_script (some setSameScript) [(['a'], ['1'])]).envChanged
      = false ∧
    (hookStage (some setSameScript) [(['a'], ['1'])] [(['a'], ['1'])]).saveCount
      = 0 := by
  exact ⟨by decide, by decide⟩

/-- C5 (amended): mutation detection is by value comparison with the
snapshot: a hook that leaves the environment mapping exactly as it was —
one that only reads, or only writes values already present — yields
`envChanged = false` and `write_environment_file` is not called; a hook
after which the mapping differs from the snapshot yields
`envChanged = true` and `write_environment_file` is called exactly once
as a consequence; and a missing hook script never triggers a save. -/
theorem c5_amended_mutation_detection (f : ScriptFn) (cur g : Env) :
    ((f cur).1 = cur →
      (hookStage (some f) cur g).envChanged = false ∧
      (hookStage (some f) cur g).saveCount = 0) ∧
    (envEqb (f cur).1 cur = false →
      (hookStage (some f) cur g).envChanged = true ∧
      (hookStage (some f) cur g).saveCount = 1) ∧
    (hookStage none cur g).saveCount = 0 := by
  refine ⟨?_, ?_, rfl⟩
  · intro hid
    have hch : (execute_script (some f) cur).envChanged = false := by
      show (decide ¬ (envEqb (f cur).1 cur = true)) = false
      rw [hid, envEqb_refl]
      decide
    exact ⟨by rw [hookStage_envChanged, hch],
      by rw [hookStage_saveCount, hch]; rfl⟩
  · intro hne
    have hch : (execute_script (some f) cur).envChanged = true := by
      show (decide ¬ (envEqb (f cur).1 cur = true)) = true
      rw [hne]
      decide
    exact ⟨by rw [hookStage_envChanged, hch],
      by rw [hookStage_saveCount, hch]; rfl⟩

/-- C5 (amended, witness): the read-only hook on `a=1` triggers no save,
and the hook that adds `KEY=1` to the empty environment is detected and
triggers exactly one save. -/
theorem c5_amended_mutation_detection_witness :
    ((hookStage (some readOnlyScript) [(['a'], ['1'])] [(['a'], ['1'])]).envChanged
        = false ∧
      (hookStage (some readOnlyScript) [(['a'], ['1'])] [(['a'], ['1'])]).saveCount
        = 0) ∧
    ((hookStage (some addKeyScript) [] []).envChanged = true ∧
      (hookStage (some addKeyScript) [] []).saveCount = 1) := by
  exact ⟨(c5_amended_mutation_detection readOnlyScript
      [(['a'], ['1'])] [(['a'], ['1'])]).1 rfl,
    (c5_amended_mutation_detection addKeyScript [] []).2.1 (by decide)⟩

theorem processRequest_success_of_parseOk {g : Env} {r : RequestSpec}
    (h : r.parseOk = true) :
    (processRequest g r).requestSuccess =
      (if r.posScript.isSome then
        (if (processRequest g r).postAssert then false
         else if (processRequest g r).postErr.isSome then false
         else (processRequest g r).preErr.isNone)
       else false) := by
  rw [processRequest, if_neg (by simp [h])]

/-- C6 (counterexample): the claim says that with a post-hook a request
is classified success if and only if the post-hook produced no assertion
failure and no script error.  A request whose pre-hook raises and whose
post-hook runs cleanly refutes the "if": its post-hook has no assertion
failure and no error, the response is a 200, yet the request is
classified failed because the pre-hook error already cleared
`request_success` (core_logic.py line 581). -/
theorem c6_counterexample_pre_error_fails_clean_post :
    (processRequest [] reqPreErrCleanPost).requestSuccess = false ∧
    (processRequest [] reqPreErrCleanPost).postAssert = false ∧
    (processRequest [] reqPreErrCleanPost).postErr = none ∧
    reqPreErrCleanPost.posScript.isSome = true ∧
    reqPreErrCleanPost.response = some 200 := by
  exact ⟨by decide, by decide, by decide, by decide, rfl⟩

/-- C6 (amended): for a request that parses and whose pre-hook raised no
error, with a post-hook present, classification is success exactly when
the post-hook produced no assertion failure and no script error —
whatever the HTTP status (the status is not consulted in this branch). -/
theorem c6_amended_post_hook_classification (g : Env) (r : RequestSpec)
    (hparse : r.parseOk = true) (hpos : r.posScript.isSome = true)
    (hpre : (processRequest g r).preErr = none) :
    (processRequest g r).requestSuccess = true ↔
      ((processRequest g r).postAssert = false ∧
        (processRequest g r).postErr = none) := by
  rw [processRequest_success_of_parseOk hparse, hpos, if_pos rfl]
  cases hA : (processRequest g r).postAssert <;>
    cases hE : (processRequest g r).postErr <;>
      simp [hA, hE, hpre]

/-- C6 (amended, witness): a clean post-hook on a 503 response is
classified success. -/
theorem c6_amended_post_hook_classification_witness :
    (processRequest [] reqCleanPost503).requestSuccess = true ∧
    reqCleanPost503.response = some 503 := by
  refine ⟨?_, rfl⟩
  exact (c6_amended_post_hook_classification [] reqCleanPost503
    rfl rfl rfl).mpr ⟨rfl, rfl⟩

/-- C7: substitution is single-pass.  When the scan matches the
reference `{{n}}` whose stripped name is bound to `val`, the value is
emitted verbatim and scanning resumes strictly after the match: even when
`val` itself contains `{{x}}`-shaped text, only the remainder `t` of the
input is processed further, so the replacement is never re-expanded. -/
theorem c7_single_pass_substitution (vars helper : Str → Option Str)
    (n t val : Str)
    (h1 : hasClose (n ++ ['}']) = false) (h2 : ¬ '\n' ∈ n)
    (h3 : isPmExpr (pyStrip n) = false)
    (h4 : vars (pyStrip n) = some val) :
    substitute_variables vars helper ('{' :: '{' :: (n ++ '}' :: '}' :: t)) =
      val ++ substitute_variables vars helper t := by
  rw [subst_ref_found t h1 h2, if_neg (by simp [h3]), h4]
  rfl

/-- C7 (witness): with `a` bound to the text `{{x}}` and `x` bound to
`BOOM`, resolving `{{a}}` yields the literal text `{{x}}`, not `BOOM`. -/
theorem c7_single_pass_substitution_witness :
    substitute_variables selfRefVars noHelper
        ('{' :: '{' :: (['a'] ++ '}' :: '}' :: [])) = bracedRef ['x'] ∧
    selfRefVars ['x'] = some "BOOM".toList := by
  constructor
  · have h := c7_single_pass_substitution selfRefVars noHelper ['a'] []
      (bracedRef ['x']) (by decide) (by decide) (by decide) (by decide)
    rw [h, subst_nil]
    simp
  · rfl

/-- C8: over a well-formed template, substitution resolves every
reference whose name the variable table knows to the table's value and
leaves every unknown reference as the literal `{{name}}` text; when every
referenced name is known (with braceless values), the output holds no
`{` at all, hence no unresolved reference from the input. -/
theorem c8_substitution_totality (vars helper : Str → Option Str)
    (chunks : List TChunk)
    (hwf : ∀ ch ∈ chunks, chunkWFb ch = true) :
    substitute_variables vars helper (renderText chunks) =
      (chunks.map (resolveChunk vars)).flatten ∧
    ((∀ n, TChunk.ref n ∈ chunks →
        ∃ v, vars n = some v ∧ ∀ c ∈ v, ¬ c = '{') →
      ∀ c ∈ substitute_variables vars helper (renderText chunks),
        ¬ c = '{') :=
  ⟨subst_renderText hwf, fun hknown => subst_renderText_no_brace hwf hknown⟩

/-- C8 (witness): the template `u-{{a}}-{{q}}` with only `a` known
resolves to `u-1-` followed by the untouched literal `{{q}}`. -/
theorem c8_substitution_totality_witness :
    substitute_variables oneVar noHelper (renderText demoChunks) =
      "u-1-".toList ++ bracedRef ['q'] := by
  have h := (c8_substitution_totality oneVar noHelper demoChunks
    (by decide)).1
  rw [h]
  decide

/-- C9: the persisted form never contains reserved keys: every entry
that `write_environment_file` serializes comes from the `clean_vars`
filter, whose keys all lack the internal `_` prefix, whatever reserved
keys the in-memory environment holds. -/
theorem c9_reserved_keys_never_persisted (e : Env) :
    ∀ kv ∈ cleanVars e, isReserved kv.1 = false := by
  intro kv hkv
  have h := List.mem_filter.mp hkv
  simpa using h.2

/-- C9 (witness): on a store holding the reserved key `_r` and the plain
key `A`, only `A=1` is serialized, and the theorem applies to it. -/
theorem c9_reserved_keys_never_persisted_witness :
    isReserved "A".toList = false ∧
    cleanVars [("_r".toList, ['z']), ("A".toList, ['1'])]
      = [("A".toList, ['1'])] := by
  constructor
  · exact c9_reserved_keys_never_persisted
      [("_r".toList, ['z']), ("A".toList, ['1'])]
      ("A".toList, ['1']) (by decide)
  · decide

/-- C10: a hook that mutates the environment and then raises keeps its
mutations: `exec` mutates the dict in place and `execute_script` never
restores the snapshot (the snapshot is used only for the comparison), so
the hook stage reports `envChanged = true`, keeps the mutated
environment, merges it into the global environment and calls
`write_environment_file` exactly once — no rollback on script error. -/
theorem c10_no_rollback_on_script_error (f : ScriptFn) (cur g : Env)
    (err : ScriptErr)
    (herr : (f cur).2 = some err)
    (hch : envEqb (f cur).1 cur = false) :
    (hookStage (some f) cur g).currentEnv = (f cur).1 ∧
    (hookStage (some f) cur g).envChanged = true ∧
    (hookStage (some f) cur g).err = some err ∧
    (hookStage (some f) cur g).globalEnv = envUpdate g (f cur).1 ∧
    (hookStage (some f) cur g).saveCount = 1 := by
  have hchb : (execute_script (some f) cur).envChanged = true := by
    show (decide ¬ (envEqb (f cur).1 cur = true)) = true
    rw [hch]
    decide
  refine ⟨rfl, ?_, ?_, ?_, ?_⟩
  · rw [hookStage_envChanged, hchb]
  · rw [hookStage_err]
    exact herr
  · rw [hookStage_globalEnv, hchb, if_pos rfl]
    rfl
  · rw [hookStage_saveCount, hchb, if_pos rfl]

/-- C10 (witness): the hook that sets `K=2` and then raises, run on the
empty environment, keeps `K=2`, reports the change and saves once. -/
theorem c10_no_rollback_on_script_error_witness :
    (hookStage (some mutateAndRaiseScript) [] []).currentEnv
      = [(['K'], ['2'])] ∧
    (hookStage (some mutateAndRaiseScript) [] []).envChanged = true ∧
    (hookStage (some mutateAndRaiseScript) [] []).saveCount = 1 := by
  have h := c10_no_rollback_on_script_error mutateAndRaiseScript [] []
    ⟨false⟩ rfl (by decide)
  exact ⟨by rw [h.1]; rfl, h.2.1, h.2.2.2.2⟩
